import Mathlib

/-!
Verification of the ranking / de-duplication / pivot core of
src-game-csv-exporter (src/src-game-csv-exporter.js).

Shallow embedding conventions:
* JS numbers are modelled as `Rat` (the timing values are exact decimals;
  NaN does not arise for the fields involved).
* An optional JS object field is an `Option`; reading a missing field off
  `undefined` (a thrown TypeError) is modelled by `Except.error ()`.
* JS truthiness is made explicit: a number is falsy iff it is 0 or absent,
  a string is falsy iff it is empty or absent.
* The auxiliary network lookups (getUsername / getPlatform) are modelled as
  pure resolution functions in an `Env`; the source caches them, which is
  observationally the identity for a fixed upstream.
* JS `%` on numbers is truncated remainder, `Int.tmod`.
* `Array.prototype.sort` is modelled as a stable sort (`List.insertionSort`).
* A JS object used as a string-keyed map is an association list in key
  insertion order.
-/

set_option autoImplicit false

namespace SrcExport

/-- Command-line options consumed by the core. -/
structure Opts where
  includeUnverifiedRuns : Bool
  includeRunHistory : Bool
  breakoutVariables : Bool
  deriving DecidableEq

/-- Resolved auxiliary lookups: user id to username, platform id to platform
name.  `none` models an upstream response lacking the expected payload, in
which case the source's getUsername / getPlatform return undefined. -/
structure Env where
  username : String → Option String
  platform : String → Option String

/-- JS truthiness of an optional number (`undefined` and `0` are falsy). -/
def truthyNum : Option Rat → Bool
  | none => false
  | some q => q != 0

/-- JS truthiness of an optional string (`undefined` and `""` are falsy). -/
def truthyStr : Option String → Bool
  | none => false
  | some s => s != ""

/-- getUsername (source lines 100-109): returns undefined on a falsy id,
otherwise the (cached) resolved international username, if any. -/
def getUsername (env : Env) : Option String → Option String
  | none => none
  | some i => if i = "" then none else env.username i

/-- getPlatform (source lines 89-98): returns undefined on a falsy id,
otherwise the (cached) resolved platform name, if any. -/
def getPlatform (env : Env) : Option String → Option String
  | none => none
  | some i => if i = "" then none else env.platform i

/-- The nested status object of a raw run (`status`, `verify-date`,
`examiner`). -/
structure StatusObj where
  status : Option String
  verifyDate : Option String
  examiner : Option String
  deriving DecidableEq

/-- The value stored under the `status` key of the object handed to
processRun.  On a genuine API response it is a nested object; on an
already-normalized Run it is a plain string, and in JS reading `.status`
off a string yields undefined without throwing. -/
inductive StatusField where
  | strVal (s : String)
  | objVal (o : StatusObj)
  deriving DecidableEq

/-- The `times` object of a raw run; only `primary_t` is read. -/
structure TimesObj where
  primary_t : Option Rat
  deriving DecidableEq

/-- One element of `videos.links`. -/
structure LinkObj where
  uri : Option String
  deriving DecidableEq

/-- The `videos` object of a raw run; only `links` is read. -/
structure VideosObj where
  links : Option (List LinkObj)
  deriving DecidableEq

/-- The `system` object of a raw run; only `platform` is read. -/
structure SystemObj where
  platform : Option String
  deriving DecidableEq

/-- One element of the `players` array of a raw run. -/
structure PlayerRef where
  rel : Option String
  id : Option String
  name : Option String
  deriving DecidableEq

/-- A raw run record, restricted to the fields processRun reads. -/
structure RawRun where
  id : Option String
  comment : Option String
  submitted : Option String
  status : Option StatusField
  values : Option (List (String × String))
  times : Option TimesObj
  videos : Option VideosObj
  system : Option SystemObj
  players : Option (List PlayerRef)
  deriving DecidableEq

/-- The resolved player of a normalized run. -/
structure Player where
  rel : String
  id : Option String
  name : Option String
  deriving DecidableEq

/-- A normalized run, as built by processRun (the Normalizer). -/
structure Run where
  id : Option String
  comment : Option String
  submitTime : Option String
  status : String
  variables' : List (String × String)
  time : Option String
  timeSeconds : Option Rat
  verifyTime : Option String
  verifier : Option String
  videos : Option (List String)
  platform : Option String
  player : Option Player
  deriving DecidableEq

/-- `('' + n).padStart(2, '0')`: pad a string on the left with `'0'` up to
length 2. -/
def padStart2 (s : String) : String :=
  if s.length < 2 then String.mk (List.replicate (2 - s.length) '0') ++ s else s

/-- The HH:MM:SS arithmetic of processRun (source lines 128-136) on the
floored total: seconds via `% 60`, then the remainder reduced `% 3600` for
minutes, the rest divided by 3600 for hours.  JS `%` is truncated remainder
and the two divisions are exact. -/
def formatTime (total : Int) : String :=
  let seconds := Int.tmod total 60
  let rem1 := total - seconds
  let minutesRaw := Int.tmod rem1 3600
  let minutes := Int.tdiv minutesRaw 60
  let hours := Int.tdiv (rem1 - minutesRaw) 3600
  padStart2 (toString hours) ++ ":" ++ padStart2 (toString minutes) ++ ":" ++
    padStart2 (toString seconds)

/-- The time block of processRun (source lines 127-138): when `times` is
present and `primary_t` is truthy, the formatted time string of the floored
value together with the raw value stored as timeSeconds; otherwise nothing,
and line 139 rejects. -/
def timeInfoOf (r : RawRun) : Option (String × Rat) :=
  match r.times with
  | none => none
  | some tObj =>
    match tObj.primary_t with
    | none => none
    | some t =>
      if t = 0 then none else some (formatTime (Rat.floor t), t)

/-- The videos block of processRun (source lines 145-153): when `videos.links`
exists and has a truthy first element, the uris of the links, falsy ones
filtered out. -/
def videosOf (r : RawRun) : Option (List String) :=
  match r.videos with
  | none => none
  | some v =>
    match v.links with
    | none => none
    | some [] => none
    | some (l0 :: ls) =>
      some ((l0 :: ls).filterMap (fun l =>
        match l.uri with
        | none => none
        | some u => if u = "" then none else some u))

/-- The platform block of processRun (source lines 154-156). -/
def platformOf (env : Env) (r : RawRun) : Option String :=
  match r.system with
  | none => none
  | some sys =>
    if truthyStr sys.platform then getPlatform env sys.platform else none

/-- The player block of processRun (source lines 157-175): a player is
resolved only when exactly one player is attributed; a guest's id is its
name, a user's name is the resolved username. -/
def playerOf (env : Env) (r : RawRun) : Option Player :=
  match r.players with
  | some [p] =>
    match p.rel with
    | some "guest" => some { rel := "guest", id := p.name, name := p.name }
    | some "user" => some { rel := "user", id := p.id,
                            name := getUsername env p.id }
    | _ => none
  | _ => none

/-- Normalizer (processRun, source lines 111-178).  `Except.error ()` models
a thrown TypeError (which aborts the whole export); `Except.ok none` models
returning null; `Except.ok (some runObj)` is a retained run. -/
def processRun (env : Env) (popts : Opts) (runResponseObj : Option RawRun) :
    Except Unit (Option Run) :=
  match runResponseObj with
  | none => Except.ok none
  | some r =>
    -- line 117 reads runResponseObj.status.status while building runObj:
    -- it throws when the status field is undefined, and yields undefined
    -- when the field is a plain string
    match r.status with
    | none => Except.error ()
    | some (StatusField.strVal _) => Except.ok none
    | some (StatusField.objVal so) =>
      match so.status with
      | none => Except.ok none
      | some st =>
        if st = "" ∨ (popts.includeUnverifiedRuns = false ∧ st ≠ "verified") then
          Except.ok none
        else
          match timeInfoOf r with
          | none => Except.ok none
          | some (timeStr, t) =>
            Except.ok (some
              { id := r.id
                comment := r.comment
                submitTime := r.submitted
                status := st
                variables' := r.values.getD []
                time := some timeStr
                timeSeconds := some t
                verifyTime := if st = "verified" then so.verifyDate else none
                verifier :=
                  if st = "verified" then getUsername env so.examiner else none
                videos := videosOf r
                platform := platformOf env r
                player := playerOf env r })

/-- One allowed value of a category variable (`label`, `rules`). -/
structure VarValue where
  label : Option String
  rules : Option String
  deriving DecidableEq

/-- A category variable (source lines 195-209): id, name and the mapping from
value id to value object, in the order the API listed them. -/
structure Variable where
  id : String
  name : Option String
  values : List (String × VarValue)
  deriving DecidableEq

/-- A category, restricted to the fields the Builder reads. -/
structure Category where
  id : String
  name : String
  variables' : List Variable
  deriving DecidableEq

/-- A leaderboard before ranking (source lines 258-277). -/
structure Leaderboard where
  id : String
  categoryId : String
  variables' : List (String × String)
  name : String
  runs : List Run
  deriving DecidableEq

/-- The walk over a category's variables for one run (source lines 223-237):
returns the uncategorized flag together with the (varId, valueId) pairs
accumulated before the walk stopped (all pairs when it did not stop).  A
variable fails when the run records no truthy value for it or the recorded
value is not among the variable's values. -/
def walkVars (runVars : List (String × String)) :
    List Variable → Bool × List (String × String)
  | [] => (false, [])
  | v :: rest =>
    match List.lookup v.id runVars with
    | none => (true, [])
    | some val =>
      if val = "" then (true, [])
      else
        match List.lookup val v.values with
        | none => (true, [])
        | some _ =>
          let r := walkVars runVars rest
          (r.1, (v.id, val) :: r.2)

/-- The per-variable failure test of the walk, as a single predicate: no
recorded value, a falsy recorded value, or a recorded value that is not a
recognized value of the variable. -/
def varMissing (runVars : List (String × String)) (v : Variable) : Bool :=
  match List.lookup v.id runVars with
  | none => true
  | some val => if val = "" then true else (List.lookup val v.values).isNone

/-- Breakout leaderboard id (source lines 246-253): the category id followed
by one `$varId^valueId` group per pair, in order. -/
def lbIdOf (catId : String) (pairs : List (String × String)) : String :=
  catId ++ String.join (pairs.map (fun p => "$" ++ p.1 ++ "^" ++ p.2))

/-- JS string concatenation of a possibly-undefined label. -/
def labelStr : Option String → String
  | none => "undefined"
  | some s => s

/-- The label appended to the leaderboard name for one (variable, valueId)
pair (source line 254). -/
def labelOf (v : Variable) (val : String) : String :=
  match List.lookup val v.values with
  | none => "undefined"
  | some vv => labelStr vv.label

/-- Breakout leaderboard name (source lines 246-255): the category name, then
the value labels joined with a leading separator, three hyphen-minus for the
first and a comma for the rest. -/
def lbNameOf (catName : String) (labels : List String) : String :=
  match labels with
  | [] => catName
  | l0 :: rest =>
    catName ++ " - " ++ l0 ++ String.join (rest.map (fun l => ", " ++ l))

/-- Classification of one run under breakout (source lines 222-256): the
target leaderboard id, its name, and the usedVars map recorded on a freshly
created leaderboard.  For an uncategorized run the usedVars are the pairs
accumulated before the walk stopped, exactly as in the source. -/
def classifyRun (cat : Category) (runObj : Run) :
    String × String × List (String × String) :=
  let w := walkVars runObj.variables' cat.variables'
  if w.1 then
    (cat.id ++ "$UNCATEGORIZED", cat.name ++ " - Uncategorized", w.2)
  else
    (lbIdOf cat.id w.2,
     lbNameOf cat.name ((List.zip cat.variables' w.2).map
       (fun z => labelOf z.1 z.2.2)),
     w.2)

/-- Push one run onto the leaderboard with the given id, creating the
leaderboard at the end of the map on first use (source lines 258-267). -/
def pushRun (lbs : List Leaderboard) (lbId lbName catId : String)
    (usedVars : List (String × String)) (runObj : Run) : List Leaderboard :=
  match lbs with
  | [] => [{ id := lbId, categoryId := catId, variables' := usedVars,
             name := lbName, runs := [runObj] }]
  | lb :: rest =>
    if lb.id = lbId then { lb with runs := lb.runs ++ [runObj] } :: rest
    else lb :: pushRun rest lbId lbName catId usedVars runObj

/-- One step of the breakout Builder: classify a run and push it. -/
def buildStep (cat : Category) (lbs : List Leaderboard) (runObj : Run) :
    List Leaderboard :=
  pushRun lbs (classifyRun cat runObj).1 (classifyRun cat runObj).2.1 cat.id
    (classifyRun cat runObj).2.2 runObj

/-- Breakout Builder (source lines 221-268): fold the runs of a category into
the accumulated leaderboard map. -/
def buildBreakout (cat : Category) : List Run → List Leaderboard →
    List Leaderboard
  | [], lbs => lbs
  | runObj :: rest, lbs => buildBreakout cat rest (buildStep cat lbs runObj)

/-- Lookup of a leaderboard by id in the accumulated map. -/
def findLb (lbs : List Leaderboard) (lbId : String) : Option Leaderboard :=
  lbs.find? (fun lb => lb.id == lbId)

/-- The runs stored under a leaderboard id (empty when the id is absent). -/
def runsAt (lbs : List Leaderboard) (lbId : String) : List Run :=
  match findLb lbs lbId with
  | none => []
  | some lb => lb.runs

/-- The timeSeconds value the ranking comparator reads (all runs reaching the
comparator have a truthy timeSeconds). -/
def timeVal (runObj : Run) : Rat :=
  runObj.timeSeconds.getD 0

/-- The Ranker's retention test (source line 288): a run is kept only with a
truthy timeSeconds and a resolved player with a truthy id. -/
def keepRun (runObj : Run) : Bool :=
  truthyNum runObj.timeSeconds &&
    match runObj.player with
    | none => false
    | some p => truthyStr p.id

/-- The partition key of a kept run (source lines 289-290). -/
def playerKey (runObj : Run) : String :=
  match runObj.player with
  | none => ""
  | some p => p.id.getD ""

/-- Append a run to the bucket of its key, creating the bucket at the end on
first use (JS object key insertion order). -/
def addToGroup (gs : List (String × List Run)) (k : String) (r : Run) :
    List (String × List Run) :=
  match gs with
  | [] => [(k, [r])]
  | g :: rest =>
    if g.1 = k then (g.1, g.2 ++ [r]) :: rest
    else g :: addToGroup rest k r

/-- The grouping loop of the Ranker (source lines 286-291) over an
accumulator. -/
def groupRuns (gs : List (String × List Run)) : List Run →
    List (String × List Run)
  | [] => gs
  | r :: rest =>
    if keepRun r then groupRuns (addToGroup gs (playerKey r) r) rest
    else groupRuns gs rest

/-- runsByUserId: partition the kept runs of a leaderboard by player id. -/
def groupByPlayer (runs : List Run) : List (String × List Run) :=
  groupRuns [] runs

/-- Ascending comparison by timeSeconds, the sort comparator of source lines
294 and 306. -/
def runLE (a b : Run) : Prop :=
  timeVal a ≤ timeVal b

instance : DecidableRel runLE :=
  fun a b => inferInstanceAs (Decidable (timeVal a ≤ timeVal b))

instance : IsTotal Run runLE :=
  ⟨fun a b => le_total (timeVal a) (timeVal b)⟩

instance : IsTrans Run runLE :=
  ⟨fun _ _ _ h1 h2 => le_trans h1 h2⟩

/-- The in-place sort of a player's runs, as a stable sort. -/
def sortRuns (runs : List Run) : List Run :=
  List.insertionSort runLE runs

/-- A representative entry before rank assignment: the player's best run plus
the optional obsoleteRuns list attached to it. -/
structure PreEntry where
  run : Run
  obsoleteRuns : Option (List Run)
  deriving DecidableEq

/-- A ranked leaderboard entry. -/
structure Entry where
  run : Run
  rank : Nat
  obsoleteRuns : Option (List Run)
  deriving DecidableEq

/-- The per-player step of the Ranker (source lines 293-305): sort the
partition ascending, take the fastest as the entry, and attach the remaining
runs as obsoleteRuns exactly when run history is requested. -/
def processPartition (popts : Opts) (userRuns : List Run) : Option PreEntry :=
  match sortRuns userRuns with
  | [] => none
  | best :: rest =>
    some { run := best,
           obsoleteRuns := if popts.includeRunHistory then some rest else none }

/-- Ascending comparison of pre-entries by their run's timeSeconds. -/
def preLE (a b : PreEntry) : Prop :=
  timeVal a.run ≤ timeVal b.run

instance : DecidableRel preLE :=
  fun a b => inferInstanceAs (Decidable (timeVal a.run ≤ timeVal b.run))

instance : IsTotal PreEntry preLE :=
  ⟨fun a b => le_total (timeVal a.run) (timeVal b.run)⟩

instance : IsTrans PreEntry preLE :=
  ⟨fun _ _ _ h1 h2 => le_trans h1 h2⟩

/-- Ascending comparison of ranked entries by their run's timeSeconds. -/
def entryLE (a b : Entry) : Prop :=
  timeVal a.run ≤ timeVal b.run

/-- The rank-assignment loop of the Ranker (source lines 307-315), carrying
the position, the previous entry's time and the previous entry's rank. -/
def rankAux : Nat → Rat → Nat → List PreEntry → List Entry
  | _, _, _, [] => []
  | i, prevTime, prevRank, e :: rest =>
    let r := if i = 0 then 1
             else if timeVal e.run = prevTime then prevRank else i + 1
    { run := e.run, rank := r, obsoleteRuns := e.obsoleteRuns } ::
      rankAux (i + 1) (timeVal e.run) r rest

/-- The Ranker (source lines 284-317): partition the kept runs by player,
collapse each partition to its best run, sort the representatives ascending
by timeSeconds and assign competition ranks. -/
def rankLeaderboard (popts : Opts) (lb : Leaderboard) : List Entry :=
  rankAux 0 0 0 (List.insertionSort preLE
    ((groupByPlayer lb.runs).filterMap (fun g => processPartition popts g.2)))

/-- Reading a normalized Run object through the raw-run accessors of
processRun (needed to state re-application of the Normalizer to its own
output).  A Run has no submitted, values, times, system or players fields,
so those reads yield undefined; its status is a plain string; its videos
field, when present, is a plain array of strings, which has no links
property. -/
def runAsRaw (runObj : Run) : RawRun :=
  { id := runObj.id
    comment := runObj.comment
    submitted := none
    status := some (StatusField.strVal runObj.status)
    values := none
    times := none
    videos := runObj.videos.map (fun _ => { links := none })
    system := none
    players := none }

/-- The Builder invariant: every run stored in a bucket classifies to that
bucket's id. -/
def lbInv (cat : Category) (lbs : List Leaderboard) : Prop :=
  ∀ lb ∈ lbs, ∀ x ∈ lb.runs, (classifyRun cat x).1 = lb.id

/-- The grouping invariant of the Ranker: every run stored in any bucket
passed the retention test of source line 288. -/
def groupsOk (gs : List (String × List Run)) : Prop :=
  ∀ g ∈ gs, ∀ x ∈ g.2, keepRun x = true

/-! ### Concrete fixtures -/

/-- An upstream that resolves nothing (sufficient for guest players). -/
def env0 : Env :=
  { username := fun _ => none, platform := fun _ => none }

/-- Default options: only verified runs, no history, no breakout. -/
def opts0 : Opts :=
  { includeUnverifiedRuns := false, includeRunHistory := false,
    breakoutVariables := false }

/-- Options with run history retention enabled. -/
def optsHist : Opts :=
  { includeUnverifiedRuns := false, includeRunHistory := true,
    breakoutVariables := false }

/-- A verified raw run by a single guest player with the given primary time. -/
def rawVerified (pid : String) (t : Rat) : RawRun :=
  { id := some ("run-" ++ pid), comment := some "gg",
    submitted := some "2020-01-02",
    status := some (StatusField.objVal
      { status := some "verified", verifyDate := some "2020-01-03",
        examiner := none }),
    values := none, times := some { primary_t := some t }, videos := none,
    system := none,
    players := some [{ rel := some "guest", id := none, name := some pid }] }

/-- The normalized run `processRun env0 opts0 (some (rawVerified pid t))`
produces, with its formatted time string spelled out. -/
def normGuest (pid : String) (t : Rat) (timeStr : String) : Run :=
  { id := some ("run-" ++ pid), comment := some "gg",
    submitTime := some "2020-01-02", status := "verified", variables' := [],
    time := some timeStr, timeSeconds := some t,
    verifyTime := some "2020-01-03", verifier := none, videos := none,
    platform := none,
    player := some { rel := "guest", id := some pid, name := some pid } }

/-- A minimal normalized run for Ranker examples: one user player `pid` with
the given timeSeconds. -/
def exRun (pid : String) (t : Rat) : Run :=
  { id := some pid, comment := none, submitTime := none, status := "verified",
    variables' := [], time := none, timeSeconds := some t, verifyTime := none,
    verifier := none, videos := none, platform := none,
    player := some { rel := "user", id := some pid, name := some pid } }

/-- Three players with times 10, 10, 20: the tie example of the spec. -/
def exLb3 : Leaderboard :=
  { id := "cat1", categoryId := "cat1", variables' := [], name := "Any",
    runs := [exRun "p1" 10, exRun "p2" 10, exRun "p3" 20] }

/-- One player with runs at 12, 10 and 15 seconds: the history example. -/
def exLbHist : Leaderboard :=
  { id := "cat1", categoryId := "cat1", variables' := [], name := "Any",
    runs := [exRun "p1" 12, exRun "p1" 10, exRun "p1" 15] }

/-- The fractional time 10.2 seconds, as an explicit reduced rational. -/
def qA : Rat := Rat.mk' 51 5 (by decide) (by decide)

/-- The fractional time 10.5 seconds, as an explicit reduced rational. -/
def qB : Rat := Rat.mk' 21 2 (by decide) (by decide)

/-- Two players whose fractional times 10.2 and 10.5 floor to the same
displayed second. -/
def exLbFrac : Leaderboard :=
  { id := "cat1", categoryId := "cat1", variables' := [], name := "Any",
    runs := [normGuest "pa" qA "00:00:10",
             normGuest "pb" qB "00:00:10"] }

/-- The representative pre-entry of the history example: best run 10s, the
obsolete runs 12s and 15s attached in ascending order. -/
def exHistEntry : PreEntry :=
  { run := exRun "p1" 10,
    obsoleteRuns := some [exRun "p1" 12, exRun "p1" 15] }

/-- The single ranked entry of the history example leaderboard. -/
def exEntryHist : Entry :=
  { run := exRun "p1" 10, rank := 1,
    obsoleteRuns := some [exRun "p1" 12, exRun "p1" 15] }

/-- A raw run whose `status` field is entirely absent (but which is otherwise
healthy: verified-independent fields present, a truthy primary time). -/
def rawNoStatusField : RawRun :=
  { id := some "r1", comment := none, submitted := none, status := none,
    values := none, times := some { primary_t := some 100 }, videos := none,
    system := none, players := none }

/-- A category variable with the given allowed value ids, labelled by
prefixing the value id with `L`. -/
def exVar (vid : String) (vals : List String) : Variable :=
  { id := vid, name := some vid,
    values := vals.map (fun v => (v, { label := some ("L" ++ v), rules := none })) }

/-- A two-variable category for breakout examples. -/
def exCat : Category :=
  { id := "c", name := "Cat",
    variables' := [exVar "v1" ["a", "x"], exVar "v2" ["b", "y"]] }

/-- A run with the given recorded variable values. -/
def runWithVars (vs : List (String × String)) : Run :=
  { exRun "p1" 10 with variables' := vs }

/-- Stated from the claim's words (C9): seconds = total mod 60, rem1 =
total - seconds, minutesRaw = rem1 mod 3600, minutes = minutesRaw / 60,
hours = (rem1 - minutesRaw) / 3600, each piece rendered zero-padded and
joined with colons.  `mod` and `/` are the JS operators whose arithmetic the
claim replicates: truncated remainder, and division that is exact here. -/
def specTimeString (total : Int) : String :=
  let seconds := Int.tmod total 60
  let rem1 := total - seconds
  let minutesRaw := Int.tmod rem1 3600
  let minutes := Int.tdiv minutesRaw 60
  let hours := Int.tdiv (rem1 - minutesRaw) 3600
  padStart2 (toString hours) ++ ":" ++ padStart2 (toString minutes) ++ ":" ++
    padStart2 (toString seconds)

/-! ### Normalizer lemmas -/

/-- Characterization of a successful time block. -/
theorem timeInfoOf_eq_some {r : RawRun} {s : String} {t : Rat}
    (h : timeInfoOf r = some (s, t)) :
    ∃ tObj, r.times = some tObj ∧ tObj.primary_t = some t ∧ t ≠ 0 ∧
      s = formatTime (Rat.floor t) := by
  cases hts : r.times with
  | none => simp [timeInfoOf, hts] at h
  | some tObj =>
    cases hpt : tObj.primary_t with
    | none => simp [timeInfoOf, hts, hpt] at h
    | some t0 =>
      by_cases h0 : t0 = 0
      · simp [timeInfoOf, hts, hpt, h0] at h
      · simp [timeInfoOf, hts, hpt, h0] at h
        obtain ⟨h1, h2⟩ := h
        subst h2
        exact ⟨tObj, rfl, hpt, h0, h1.symm⟩

/-- Shape of any retained run: its time and timeSeconds fields come from the
time block. -/
theorem processRun_retained {env : Env} {popts : Opts} {r : RawRun}
    {runObj : Run}
    (h : processRun env popts (some r) = Except.ok (some runObj)) :
    ∃ s t, timeInfoOf r = some (s, t) ∧ runObj.time = some s ∧
      runObj.timeSeconds = some t := by
  cases hst : r.status with
  | none => simp [processRun, hst] at h
  | some sf =>
    cases sf with
    | strVal s0 => simp [processRun, hst] at h
    | objVal so =>
      cases hso : so.status with
      | none => simp [processRun, hst, hso] at h
      | some st =>
        by_cases hg : st = "" ∨ (popts.includeUnverifiedRuns = false ∧ st ≠ "verified")
        · simp [processRun, hst, hso, hg] at h
        · cases hti : timeInfoOf r with
          | none => simp [processRun, hst, hso, hg, hti] at h
          | some p =>
            obtain ⟨s, t⟩ := p
            simp [processRun, hst, hso, hg, hti] at h
            exact ⟨s, t, rfl, by rw [← h], by rw [← h]⟩

/-! ### Normalizer claims -/

/-- C9: for every retained run, the formatted time string is the zero-padded
HH:MM:SS rendering of the floored primary time, computed by the exact
arithmetic seconds = total mod 60, rem1 = total - seconds, minutesRaw =
rem1 mod 3600, minutes = minutesRaw / 60, hours = (rem1 - minutesRaw) / 3600;
3661 seconds format as "01:01:01", 59 as "00:00:59", 7200 as "02:00:00". -/
theorem claim9_time_format :
    (∀ env popts r runObj,
      processRun env popts (some r) = Except.ok (some runObj) →
      ∃ tObj t, r.times = some tObj ∧ tObj.primary_t = some t ∧
        runObj.time = some (specTimeString (Rat.floor t))) ∧
    specTimeString 3661 = "01:01:01" ∧ specTimeString 59 = "00:00:59" ∧
    specTimeString 7200 = "02:00:00" := by
  refine ⟨?_, rfl, rfl, rfl⟩
  intro env popts r runObj h
  obtain ⟨s, t, hti, htime, _⟩ := processRun_retained h
  obtain ⟨tObj, hts, hpt, _, hs⟩ := timeInfoOf_eq_some hti
  exact ⟨tObj, t, hts, hpt, by rw [htime, hs]; rfl⟩

/-- Witness for C9: a verified raw run with primary time 3661 is retained
with the displayed time "01:01:01". -/
theorem claim9_witness :
    processRun env0 opts0 (some (rawVerified "p9" 3661)) =
      Except.ok (some (normGuest "p9" 3661 "01:01:01")) ∧
    ∃ tObj t, (rawVerified "p9" 3661).times = some tObj ∧
      tObj.primary_t = some t ∧
      (normGuest "p9" 3661 "01:01:01").time =
        some (specTimeString (Rat.floor t)) :=
  ⟨rfl, claim9_time_format.1 env0 opts0 (rawVerified "p9" 3661)
    (normGuest "p9" 3661 "01:01:01") rfl⟩

/-- C10: a retained run stores the primary timing value unchanged in
timeSeconds while its displayed time comes from the floored value, and the
Ranker compares the fractional values: two entries displayed "00:00:10"
(primary times qA = 10.2 and qB = 10.5) receive the distinct ranks 1 and 2. -/
theorem claim10_fractional_time :
    (∀ env popts r runObj tObj t,
      processRun env popts (some r) = Except.ok (some runObj) →
      r.times = some tObj → tObj.primary_t = some t →
      runObj.timeSeconds = some t ∧
        runObj.time = some (formatTime (Rat.floor t))) ∧
    (rankLeaderboard opts0 exLbFrac).map (fun e => e.run.time) =
      [some "00:00:10", some "00:00:10"] ∧
    (rankLeaderboard opts0 exLbFrac).map (fun e => e.rank) = [1, 2] ∧
    processRun env0 opts0 (some (rawVerified "pa" qA)) =
      Except.ok (some (normGuest "pa" qA "00:00:10")) ∧
    processRun env0 opts0 (some (rawVerified "pb" qB)) =
      Except.ok (some (normGuest "pb" qB "00:00:10")) := by
  refine ⟨?_, rfl, rfl, rfl, rfl⟩
  intro env popts r runObj tObj t h hts hpt
  obtain ⟨s, t', hti, htime, hsec⟩ := processRun_retained h
  obtain ⟨tObj', hts', hpt', _, hs⟩ := timeInfoOf_eq_some hti
  rw [hts] at hts'
  injection hts' with he
  subst he
  rw [hpt] at hpt'
  injection hpt' with he2
  subst he2
  exact ⟨hsec, by rw [htime, hs]⟩

/-- Witness for C10: the retained run for primary time 10.2 stores
timeSeconds 10.2 and displays the floored value. -/
theorem claim10_witness :
    (normGuest "pa" qA "00:00:10").timeSeconds =
      some qA ∧
    (normGuest "pa" qA "00:00:10").time =
      some (formatTime (Rat.floor qA)) :=
  claim10_fractional_time.1 env0 opts0 (rawVerified "pa" qA)
    (normGuest "pa" qA "00:00:10")
    { primary_t := some qA } qA rfl rfl rfl

/-- C2 (amended): the Normalizer rejects a raw run exactly when the primary
timing field is absent or its value is zero; every retained run stores a
nonzero (not necessarily positive) timeSeconds equal to the raw primary
value. -/
theorem claim2_nonzero_time :
    (∀ env popts r runObj,
      processRun env popts (some r) = Except.ok (some runObj) →
      ∃ tObj t, r.times = some tObj ∧ tObj.primary_t = some t ∧ t ≠ 0 ∧
        runObj.timeSeconds = some t) ∧
    (∀ env popts r,
      (r.times = none ∨ ∃ tObj, r.times = some tObj ∧
        (tObj.primary_t = none ∨ tObj.primary_t = some 0)) →
      ∀ runObj, processRun env popts (some r) ≠ Except.ok (some runObj)) := by
  have main : ∀ (env : Env) (popts : Opts) (r : RawRun) (runObj : Run),
      processRun env popts (some r) = Except.ok (some runObj) →
      ∃ tObj t, r.times = some tObj ∧ tObj.primary_t = some t ∧ t ≠ 0 ∧
        runObj.timeSeconds = some t := by
    intro env popts r runObj h
    obtain ⟨s, t, hti, _, hsec⟩ := processRun_retained h
    obtain ⟨tObj, hts, hpt, hne, _⟩ := timeInfoOf_eq_some hti
    exact ⟨tObj, t, hts, hpt, hne, hsec⟩
  refine ⟨main, ?_⟩
  intro env popts r hcase runObj h
  obtain ⟨tObj, t, hts, hpt, hne, _⟩ := main env popts r runObj h
  rcases hcase with hnone | ⟨tObj', hts', hbad⟩
  · rw [hnone] at hts
    exact absurd hts (by simp)
  · rw [hts'] at hts
    injection hts with he
    subst he
    rcases hbad with hb | hb
    · rw [hb] at hpt
      exact absurd hpt (by simp)
    · rw [hb] at hpt
      injection hpt with he2
      exact hne he2.symm

/-- Counterexample for C2 as stated: primary time -5 is non-positive after
flooring, yet the run is retained, with a negative timeSeconds. -/
theorem claim2_counterexample :
    processRun env0 opts0 (some (rawVerified "pn" (-5 : Rat))) =
      Except.ok (some (normGuest "pn" (-5 : Rat) "00:00:-5")) ∧
    (normGuest "pn" (-5 : Rat) "00:00:-5").timeSeconds = some (-5 : Rat) ∧
    Rat.floor (-5 : Rat) ≤ 0 ∧ ¬(0 < (-5 : Rat)) :=
  ⟨rfl, rfl, by decide, by decide⟩

/-- Witness for C2 (amended): a retained run with primary time 30 stores the
nonzero timeSeconds 30. -/
theorem claim2_witness :
    ∃ tObj t, (rawVerified "pw" 30).times = some tObj ∧
      tObj.primary_t = some t ∧ t ≠ 0 ∧
      (normGuest "pw" 30 "00:00:30").timeSeconds = some t :=
  claim2_nonzero_time.1 env0 opts0 (rawVerified "pw" 30)
    (normGuest "pw" 30 "00:00:30") rfl

/-- C4 (amended): re-running the Normalizer on an already-normalized Run
yields a rejection (null), never an equivalent Run: the normalized shape has
a flat status string and no times field, so the raw-field requirements
fail. -/
theorem claim4_renormalize_rejects (env : Env) (popts : Opts) (runObj : Run) :
    processRun env popts (some (runAsRaw runObj)) = Except.ok none := rfl

/-- Counterexample for C4 as stated: a retained run which, fed back to the
Normalizer, is rejected instead of reproduced. -/
theorem claim4_counterexample :
    processRun env0 opts0 (some (rawVerified "p4" 30)) =
      Except.ok (some (normGuest "p4" 30 "00:00:30")) ∧
    processRun env0 opts0 (some (runAsRaw (normGuest "p4" 30 "00:00:30"))) =
      Except.ok none ∧
    (Except.ok none : Except Unit (Option Run)) ≠
      Except.ok (some (normGuest "p4" 30 "00:00:30")) :=
  ⟨rfl, rfl, by simp⟩

/-- C5: the Normalizer does return null on an absent raw run, but on a raw
run whose nested status field is missing it throws a TypeError (modelled as
Except.error) instead of returning null. -/
theorem claim5_missing_status_throws :
    processRun env0 opts0 none = Except.ok none ∧
    processRun env0 opts0 (some rawNoStatusField) = Except.error () :=
  ⟨rfl, rfl⟩

/-! ### Builder lemmas -/

/-- The walk marks a run uncategorized exactly when some variable of the
category fails the per-variable test. -/
theorem walkVars_uncat (runVars : List (String × String)) :
    ∀ vars : List Variable,
      (walkVars runVars vars).1 = vars.any (fun v => varMissing runVars v)
  | [] => rfl
  | v :: rest => by
    cases hlk : List.lookup v.id runVars with
    | none => simp [walkVars, varMissing, hlk]
    | some val =>
      by_cases hval : val = ""
      · simp [walkVars, varMissing, hlk, hval]
      · cases hvv : List.lookup val v.values with
        | none => simp [walkVars, varMissing, hlk, hval, hvv]
        | some w =>
          have hvm : varMissing runVars v = false := by
            simp [varMissing, hlk, hval, hvv]
          rw [List.any_cons, hvm]
          simp [walkVars, hlk, hval, hvv]
          exact walkVars_uncat runVars rest

/-- Pushing a run onto an id appends it to that id's bucket. -/
theorem runsAt_pushRun_self (lbs : List Leaderboard) (lbId lbName catId : String)
    (uv : List (String × String)) (r : Run) :
    runsAt (pushRun lbs lbId lbName catId uv r) lbId =
      runsAt lbs lbId ++ [r] := by
  induction lbs with
  | nil => simp [pushRun, runsAt, findLb]
  | cons lb rest ih =>
    by_cases h : lb.id = lbId
    · simp [pushRun, runsAt, findLb, h]
    · simpa [pushRun, runsAt, findLb, h] using ih

/-- Pushing a run onto an id leaves every other bucket unchanged. -/
theorem runsAt_pushRun_other (lbs : List Leaderboard)
    (lbId lbName catId : String) (uv : List (String × String)) (r : Run)
    (lbId' : String) (hne : lbId' ≠ lbId) :
    runsAt (pushRun lbs lbId lbName catId uv r) lbId' = runsAt lbs lbId' := by
  have hne2 : lbId ≠ lbId' := Ne.symm hne
  induction lbs with
  | nil => simp [pushRun, runsAt, findLb, hne2]
  | cons lb rest ih =>
    by_cases h : lb.id = lbId
    · have hh : ¬(lb.id = lbId') := fun hc => hne (hc.symm.trans h)
      simp [pushRun, runsAt, findLb, h, hh, hne2]
    · by_cases h2 : lb.id = lbId'
      · simp [pushRun, runsAt, findLb, h, h2, hne, hne2]
      · simpa [pushRun, runsAt, findLb, h, h2] using ih

/-- Building over further runs never removes a run from a bucket. -/
theorem mem_runsAt_buildBreakout (cat : Category) :
    ∀ (runs : List Run) (lbs : List Leaderboard) (lbId : String) (x : Run),
      x ∈ runsAt lbs lbId → x ∈ runsAt (buildBreakout cat runs lbs) lbId
  | [], _, _, _, h => h
  | r :: rest, lbs, lbId, x, h => by
    apply mem_runsAt_buildBreakout cat rest
    rw [buildStep]
    by_cases hid : lbId = (classifyRun cat r).1
    · rw [hid] at h
      rw [hid, runsAt_pushRun_self]
      exact List.mem_append_left _ h
    · rw [runsAt_pushRun_other _ _ _ _ _ _ _ hid]
      exact h

/-- Every input run ends up in the bucket of its classification id. -/
theorem mem_classify_bucket (cat : Category) :
    ∀ (runs : List Run) (lbs : List Leaderboard) (x : Run), x ∈ runs →
      x ∈ runsAt (buildBreakout cat runs lbs) (classifyRun cat x).1
  | [], _, _, h => absurd h (List.not_mem_nil _)
  | r :: rest, lbs, x, h => by
    rcases List.mem_cons.mp h with hx | hx
    · subst hx
      apply mem_runsAt_buildBreakout cat rest
      rw [buildStep, runsAt_pushRun_self]
      exact List.mem_append_right _ (List.mem_singleton.mpr rfl)
    · exact mem_classify_bucket cat rest _ x hx

/-- pushRun preserves the Builder invariant when the pushed run classifies to
the target id. -/
theorem lbInv_pushRun (cat : Category) (lbs : List Leaderboard)
    (lbId lbName catId : String) (uv : List (String × String)) (r : Run)
    (hinv : lbInv cat lbs) (hr : (classifyRun cat r).1 = lbId) :
    lbInv cat (pushRun lbs lbId lbName catId uv r) := by
  induction lbs with
  | nil =>
    intro lb hlb x hx
    simp [pushRun] at hlb
    subst hlb
    simp at hx
    subst hx
    exact hr
  | cons lb0 rest ih =>
    by_cases h : lb0.id = lbId
    · intro lb hlb x hx
      rw [pushRun] at hlb
      simp [h] at hlb
      rcases hlb with hlb | hlb
      · subst hlb
        show (classifyRun cat x).1 = lbId
        simp at hx
        rcases hx with hx | hx
        · rw [← h]
          exact hinv lb0 (List.mem_cons_self _ _) x hx
        · subst hx
          exact hr
      · exact hinv lb (List.mem_cons_of_mem _ hlb) x hx
    · intro lb hlb x hx
      rw [pushRun] at hlb
      simp [h] at hlb
      rcases hlb with hlb | hlb
      · subst hlb
        exact hinv lb (List.mem_cons_self _ _) x hx
      · have hrest : lbInv cat rest :=
          fun lb2 hlb2 => hinv lb2 (List.mem_cons_of_mem _ hlb2)
        exact ih hrest lb hlb x hx

/-- buildBreakout preserves the Builder invariant. -/
theorem lbInv_buildBreakout (cat : Category) :
    ∀ (runs : List Run) (lbs : List Leaderboard), lbInv cat lbs →
      lbInv cat (buildBreakout cat runs lbs)
  | [], _, h => h
  | r :: rest, lbs, h =>
    lbInv_buildBreakout cat rest _
      (lbInv_pushRun cat lbs _ _ _ _ r h rfl)

/-! ### Builder claims -/

/-- C6: for a category whose variables are ordered [v1, v2] and a run whose
recorded values a for v1 and b for v2 are both recognized, the Builder
produces the leaderboard id cat.id$v1^a$v2^b, in the category's fixed
variable order, regardless of the ordering of the run's own value map; the
swapped id is never produced. -/
theorem claim6_breakout_id :
    (∀ (cat : Category) (v1 v2 : Variable) (runObj : Run) (a b : String),
      cat.variables' = [v1, v2] →
      List.lookup v1.id runObj.variables' = some a → a ≠ "" →
      (List.lookup a v1.values).isSome = true →
      List.lookup v2.id runObj.variables' = some b → b ≠ "" →
      (List.lookup b v2.values).isSome = true →
      (classifyRun cat runObj).1 =
        cat.id ++ "$" ++ v1.id ++ "^" ++ a ++ "$" ++ v2.id ++ "^" ++ b) ∧
    (classifyRun exCat (runWithVars [("v1", "a"), ("v2", "b")])).1 =
      "c$v1^a$v2^b" ∧
    (classifyRun exCat (runWithVars [("v2", "b"), ("v1", "a")])).1 =
      "c$v1^a$v2^b" ∧
    "c$v1^a$v2^b" ≠ "c$v2^b$v1^a" := by
  refine ⟨?_, rfl, rfl, by decide⟩
  intro cat v1 v2 runObj a b hvars h1 h1ne h1some h2 h2ne h2some
  obtain ⟨w1, hw1⟩ := Option.isSome_iff_exists.mp h1some
  obtain ⟨w2, hw2⟩ := Option.isSome_iff_exists.mp h2some
  rw [classifyRun, hvars]
  simp [walkVars, h1, h1ne, hw1, h2, h2ne, hw2, lbIdOf, String.join]
  simp [String.append_assoc, String.append_empty]

/-- Witness for C6: the two-variable example category yields the id in fixed
variable order. -/
theorem claim6_witness :
    exCat.variables' = [exVar "v1" ["a", "x"], exVar "v2" ["b", "y"]] ∧
    (classifyRun exCat (runWithVars [("v2", "b"), ("v1", "a")])).1 =
      "c" ++ "$" ++ "v1" ++ "^" ++ "a" ++ "$" ++ "v2" ++ "^" ++ "b" :=
  ⟨rfl, claim6_breakout_id.1 exCat (exVar "v1" ["a", "x"])
    (exVar "v2" ["b", "y"]) (runWithVars [("v2", "b"), ("v1", "a")]) "a" "b"
    rfl rfl (by decide) rfl rfl (by decide) rfl⟩

/-- C7: a run failing the value test for some category variable is routed to
the category's UNCATEGORIZED leaderboard (with the corresponding name); it is
present in that leaderboard after building and in no other leaderboard. -/
theorem claim7_uncategorized_routing :
    ∀ (cat : Category) (runObj : Run) (runs : List Run),
      (∃ v ∈ cat.variables', varMissing runObj.variables' v = true) →
      (classifyRun cat runObj).1 = cat.id ++ "$UNCATEGORIZED" ∧
      (classifyRun cat runObj).2.1 = cat.name ++ " - Uncategorized" ∧
      (runObj ∈ runs →
        runObj ∈ runsAt (buildBreakout cat runs [])
          (cat.id ++ "$UNCATEGORIZED")) ∧
      (∀ lb, lb ∈ buildBreakout cat runs [] → runObj ∈ lb.runs →
        lb.id = cat.id ++ "$UNCATEGORIZED") := by
  intro cat runObj runs hex
  have hany : cat.variables'.any (fun v => varMissing runObj.variables' v) =
      true := by
    obtain ⟨v, hv, hm⟩ := hex
    exact List.any_eq_true.mpr ⟨v, hv, hm⟩
  have huncat : (walkVars runObj.variables' cat.variables').1 = true := by
    rw [walkVars_uncat]
    exact hany
  have hcls : (classifyRun cat runObj).1 = cat.id ++ "$UNCATEGORIZED" ∧
      (classifyRun cat runObj).2.1 = cat.name ++ " - Uncategorized" := by
    rw [classifyRun]
    simp [huncat]
  refine ⟨hcls.1, hcls.2, ?_, ?_⟩
  · intro hmem
    have := mem_classify_bucket cat runs [] runObj hmem
    rwa [hcls.1] at this
  · intro lb hlb hx
    have hinv := lbInv_buildBreakout cat runs []
      (fun lb2 hlb2 => absurd hlb2 (List.not_mem_nil _))
    rw [← hinv lb hlb runObj hx, hcls.1]

/-- Witness for C7: the example run recording only v1 is routed to the
uncategorized leaderboard of the two-variable example category. -/
theorem claim7_witness :
    (classifyRun exCat (runWithVars [("v1", "a")])).1 = "c" ++ "$UNCATEGORIZED" ∧
    (classifyRun exCat (runWithVars [("v1", "a")])).2.1 =
      "Cat" ++ " - Uncategorized" ∧
    (runWithVars [("v1", "a")] ∈ [runWithVars [("v1", "a")]] →
      runWithVars [("v1", "a")] ∈
        runsAt (buildBreakout exCat [runWithVars [("v1", "a")]] [])
          ("c" ++ "$UNCATEGORIZED")) ∧
    (∀ lb, lb ∈ buildBreakout exCat [runWithVars [("v1", "a")]] [] →
      runWithVars [("v1", "a")] ∈ lb.runs → lb.id = "c" ++ "$UNCATEGORIZED") :=
  claim7_uncategorized_routing exCat (runWithVars [("v1", "a")])
    [runWithVars [("v1", "a")]]
    ⟨exVar "v2" ["b", "y"], by decide, by decide⟩

/-! ### Ranker lemmas -/

/-- Unfolding a successful per-player step: the entry's run heads the sorted
partition and the obsolete list is the sorted tail iff history is on. -/
theorem processPartition_spec {popts : Opts} {userRuns : List Run}
    {e : PreEntry} (h : processPartition popts userRuns = some e) :
    ∃ rest, sortRuns userRuns = e.run :: rest ∧
      e.obsoleteRuns = if popts.includeRunHistory then some rest else none := by
  cases hs : sortRuns userRuns with
  | nil =>
    rw [processPartition, hs] at h
    exact absurd h (by simp)
  | cons best rest =>
    rw [processPartition, hs] at h
    injection h with h
    refine ⟨rest, ?_, ?_⟩
    · rw [← h]
    · rw [← h]

/-- addToGroup preserves the grouping invariant when the new run passed the
retention test. -/
theorem groupsOk_addToGroup (k : String) (r : Run) (hr : keepRun r = true) :
    ∀ gs, groupsOk gs → groupsOk (addToGroup gs k r)
  | [], _ => by
    intro g hg x hx
    simp [addToGroup] at hg
    subst hg
    simp at hx
    subst hx
    exact hr
  | g0 :: rest, h => by
    by_cases hk : g0.1 = k
    · intro g hg x hx
      rw [addToGroup] at hg
      simp [hk] at hg
      rcases hg with rfl | hg
      · simp at hx
        rcases hx with hx | rfl
        · exact h g0 (List.mem_cons_self _ _) x hx
        · exact hr
      · exact h g (List.mem_cons_of_mem _ hg) x hx
    · intro g hg x hx
      rw [addToGroup] at hg
      simp [hk] at hg
      rcases hg with rfl | hg
      · exact h g (List.mem_cons_self _ _) x hx
      · have hrest : groupsOk rest :=
          fun g2 hg2 => h g2 (List.mem_cons_of_mem _ hg2)
        exact groupsOk_addToGroup k r hr rest hrest g hg x hx

/-- The grouping loop preserves the invariant. -/
theorem groupsOk_groupRuns :
    ∀ (runs : List Run) (gs), groupsOk gs → groupsOk (groupRuns gs runs)
  | [], _, h => h
  | r :: rest, gs, h => by
    rw [groupRuns]
    by_cases hk : keepRun r = true
    · rw [if_pos hk]
      exact groupsOk_groupRuns rest _ (groupsOk_addToGroup (playerKey r) r hk gs h)
    · rw [if_neg hk]
      exact groupsOk_groupRuns rest gs h

/-- Every run in any bucket of runsByUserId passed line 288's test. -/
theorem groupsOk_groupByPlayer (runs : List Run) :
    groupsOk (groupByPlayer runs) :=
  groupsOk_groupRuns runs [] (fun g hg => absurd hg (List.not_mem_nil g))

/-- The rank loop only decorates: every output entry carries the run and
obsolete list of some input pre-entry. -/
theorem mem_rankAux :
    ∀ (l : List PreEntry) (i : Nat) (pt : Rat) (pr : Nat) (e : Entry),
      e ∈ rankAux i pt pr l →
      ∃ p ∈ l, e.run = p.run ∧ e.obsoleteRuns = p.obsoleteRuns
  | [], _, _, _, e, h => absurd h (List.not_mem_nil e)
  | p0 :: rest, i, pt, pr, e, h => by
    simp only [rankAux] at h
    rcases List.mem_cons.mp h with he | he
    · exact ⟨p0, List.mem_cons_self _ _, by rw [he], by rw [he]⟩
    · obtain ⟨p, hp, h1, h2⟩ := mem_rankAux rest (i + 1) _ _ e he
      exact ⟨p, List.mem_cons_of_mem _ hp, h1, h2⟩

/-- Unpacking of the retention test. -/
theorem keepRun_spec {r : Run} (h : keepRun r = true) :
    (∃ t, r.timeSeconds = some t ∧ t ≠ 0) ∧
    ∃ p pid, r.player = some p ∧ p.id = some pid ∧ pid ≠ "" := by
  rw [keepRun, Bool.and_eq_true] at h
  obtain ⟨h1, h2⟩ := h
  constructor
  · cases hts : r.timeSeconds with
    | none =>
      rw [hts] at h1
      simp [truthyNum] at h1
    | some t =>
      rw [hts] at h1
      simp [truthyNum] at h1
      exact ⟨t, rfl, h1⟩
  · cases hp : r.player with
    | none =>
      rw [hp] at h2
      simp at h2
    | some p =>
      rw [hp] at h2
      simp only [] at h2
      cases hpid : p.id with
      | none =>
        rw [hpid] at h2
        simp [truthyStr] at h2
      | some pid =>
        rw [hpid] at h2
        simp [truthyStr] at h2
        exact ⟨p, pid, rfl, hpid, h2⟩

/-! ### Ranker claims C8 and C3 -/

/-- C8: a successful per-player step returns the partition's fastest run as
the representative; with history retention on, obsoleteRuns is exactly the
remaining runs in ascending timeSeconds order (empty for a single-run
partition), and with it off no obsoleteRuns value is attached. -/
theorem claim8_player_best_and_history :
    ∀ (popts : Opts) (userRuns : List Run) (e : PreEntry),
      processPartition popts userRuns = some e →
      (e.run ∈ userRuns ∧ ∀ r ∈ userRuns, timeVal e.run ≤ timeVal r) ∧
      (popts.includeRunHistory = true →
        ∃ obs, e.obsoleteRuns = some obs ∧ List.Sorted runLE obs ∧
          (e.run :: obs).Perm userRuns ∧ (userRuns.length = 1 → obs = [])) ∧
      (popts.includeRunHistory = false → e.obsoleteRuns = none) := by
  intro popts userRuns e h
  obtain ⟨rest, hsort, hobs⟩ := processPartition_spec h
  have hperm : (e.run :: rest).Perm userRuns := by
    rw [← hsort]
    exact List.perm_insertionSort runLE userRuns
  have hsorted : List.Sorted runLE (e.run :: rest) := by
    rw [← hsort]
    exact List.sorted_insertionSort runLE userRuns
  have hmin : ∀ r ∈ userRuns, timeVal e.run ≤ timeVal r := by
    intro r hrm
    rcases List.mem_cons.mp (hperm.mem_iff.mpr hrm) with hre | hre
    · rw [hre]
    · exact (List.sorted_cons.mp hsorted).1 r hre
  refine ⟨⟨hperm.mem_iff.mp (List.mem_cons_self _ _), hmin⟩, ?_, ?_⟩
  · intro hh
    rw [hh] at hobs
    simp at hobs
    refine ⟨rest, hobs, (List.sorted_cons.mp hsorted).2, hperm, ?_⟩
    intro hlen
    have hl1 : (e.run :: rest).length = 1 := by
      rw [hperm.length_eq]
      exact hlen
    have h0 : rest.length = 0 := by simpa using hl1
    exact List.length_eq_zero.mp h0
  · intro hh
    rw [hh] at hobs
    simpa using hobs

/-- Witness for C8: the 12s/10s/15s partition yields the 10s run with the
obsolete runs 12s and 15s. -/
theorem claim8_witness :
    (exHistEntry.run ∈ [exRun "p1" 12, exRun "p1" 10, exRun "p1" 15] ∧
      ∀ r ∈ [exRun "p1" 12, exRun "p1" 10, exRun "p1" 15],
        timeVal exHistEntry.run ≤ timeVal r) ∧
    (optsHist.includeRunHistory = true →
      ∃ obs, exHistEntry.obsoleteRuns = some obs ∧ List.Sorted runLE obs ∧
        (exHistEntry.run :: obs).Perm
          [exRun "p1" 12, exRun "p1" 10, exRun "p1" 15] ∧
        ([exRun "p1" 12, exRun "p1" 10, exRun "p1" 15].length = 1 →
          obs = [])) ∧
    (optsHist.includeRunHistory = false → exHistEntry.obsoleteRuns = none) :=
  claim8_player_best_and_history optsHist
    [exRun "p1" 12, exRun "p1" 10, exRun "p1" 15] exHistEntry rfl

/-- C3: every entry of a ranked leaderboard, and every run retained in any
entry's obsoleteRuns, has a (nonzero) timeSeconds and a resolved player with
a (nonempty) id: a run lacking either never appears in the ranked output in
any form. -/
theorem claim3_dropped_runs_absent :
    ∀ (popts : Opts) (lb : Leaderboard) (e : Entry),
      e ∈ rankLeaderboard popts lb →
      ((∃ t, e.run.timeSeconds = some t ∧ t ≠ 0) ∧
        (∃ p pid, e.run.player = some p ∧ p.id = some pid ∧ pid ≠ "")) ∧
      ∀ r ∈ e.obsoleteRuns.getD [],
        (∃ t, r.timeSeconds = some t ∧ t ≠ 0) ∧
        (∃ p pid, r.player = some p ∧ p.id = some pid ∧ pid ≠ "") := by
  intro popts lb e he
  rw [rankLeaderboard] at he
  obtain ⟨p, hp, hrun, hobs⟩ := mem_rankAux _ 0 0 0 e he
  have hp2 : p ∈ (groupByPlayer lb.runs).filterMap
      (fun g => processPartition popts g.2) :=
    (List.perm_insertionSort preLE _).mem_iff.mp hp
  obtain ⟨g, hg, hgp⟩ := List.mem_filterMap.mp hp2
  obtain ⟨rest, hsort, hobs2⟩ := processPartition_spec hgp
  have hgok : ∀ x ∈ g.2, keepRun x = true :=
    groupsOk_groupByPlayer lb.runs g hg
  have hprun : p.run ∈ g.2 := by
    have hmem : p.run ∈ sortRuns g.2 := by
      rw [hsort]
      exact List.mem_cons_self _ _
    exact (List.perm_insertionSort runLE g.2).mem_iff.mp hmem
  refine ⟨?_, ?_⟩
  · rw [hrun]
    exact keepRun_spec (hgok p.run hprun)
  · intro r hr
    rw [hobs, hobs2] at hr
    cases hhist : popts.includeRunHistory with
    | false =>
      rw [hhist] at hr
      simp at hr
    | true =>
      rw [hhist] at hr
      simp at hr
      have hmem : r ∈ sortRuns g.2 := by
        rw [hsort]
        exact List.mem_cons_of_mem _ hr
      exact keepRun_spec
        (hgok r ((List.perm_insertionSort runLE g.2).mem_iff.mp hmem))

/-- Witness for C3: the single entry of the history example leaderboard has a
timeSeconds and a resolved player id, and so do both retained obsolete
runs. -/
theorem claim3_witness :
    exEntryHist ∈ rankLeaderboard optsHist exLbHist ∧
    (((∃ t, exEntryHist.run.timeSeconds = some t ∧ t ≠ 0) ∧
      (∃ p pid, exEntryHist.run.player = some p ∧ p.id = some pid ∧
        pid ≠ "")) ∧
     ∀ r ∈ exEntryHist.obsoleteRuns.getD [],
       (∃ t, r.timeSeconds = some t ∧ t ≠ 0) ∧
       (∃ p pid, r.player = some p ∧ p.id = some pid ∧ pid ≠ "")) := by
  have hmem : exEntryHist ∈ rankLeaderboard optsHist exLbHist := by
    show exEntryHist ∈ [exEntryHist]
    exact List.mem_singleton.mpr rfl
  exact ⟨hmem, claim3_dropped_runs_absent optsHist exLbHist exEntryHist hmem⟩

/-! ### Rank assignment lemmas (C1) -/

/-- The rank loop preserves length. -/
theorem rankAux_length :
    ∀ (l : List PreEntry) (i : Nat) (pt : Rat) (pr : Nat),
      (rankAux i pt pr l).length = l.length
  | [], _, _, _ => rfl
  | p :: rest, i, pt, pr => by
    simp only [rankAux, List.length_cons]
    rw [rankAux_length rest]

/-- The rank loop preserves each position's run. -/
theorem rankAux_getElem_run :
    ∀ (l : List PreEntry) (i : Nat) (pt : Rat) (pr : Nat) (j : Nat)
      (h1 : j < (rankAux i pt pr l).length) (h2 : j < l.length),
      (rankAux i pt pr l)[j].run = l[j].run
  | [], _, _, _, j, _, h2 => absurd h2 (Nat.not_lt_zero j)
  | p :: rest, i, pt, pr, 0, h1, h2 => rfl
  | p :: rest, i, pt, pr, j + 1, h1, h2 => by
    have h2m : j < rest.length := by
      simp only [List.length_cons] at h2
      omega
    have h1m : j < (rankAux (i + 1) (timeVal p.run)
        (if i = 0 then 1 else if timeVal p.run = pt then pr else i + 1)
        rest).length := by
      rw [rankAux_length]
      exact h2m
    simp only [rankAux, List.getElem_cons_succ]
    exact rankAux_getElem_run rest (i + 1) (timeVal p.run) _ j h1m h2m

/-- The first entry gets rank 1 (source line 309). -/
theorem rankAux_rank_zero :
    ∀ (l : List PreEntry) (pt : Rat) (pr : Nat)
      (h : 0 < (rankAux 0 pt pr l).length),
      (rankAux 0 pt pr l)[0].rank = 1
  | [], _, _, h => by simp [rankAux] at h
  | p :: rest, pt, pr, h => rfl

/-- The rank recurrence (source lines 310-314): position j + 1 copies the
previous rank on an exact time tie and otherwise gets i + j + 2, the 1-based
position offset by the loop's starting index. -/
theorem rankAux_rank_succ :
    ∀ (l : List PreEntry) (i : Nat) (pt : Rat) (pr : Nat) (j : Nat)
      (h1 : j + 1 < (rankAux i pt pr l).length) (h2 : j + 1 < l.length),
      (rankAux i pt pr l)[j + 1].rank =
        if timeVal l[j + 1].run = timeVal l[j].run
        then (rankAux i pt pr l)[j].rank
        else i + j + 2
  | [], _, _, _, j, _, h2 => absurd h2 (Nat.not_lt_zero _)
  | p :: rest, i, pt, pr, 0, h1, h2 => by
    cases rest with
    | nil => simp at h2
    | cons q rest2 =>
      by_cases heq : timeVal q.run = timeVal p.run
      · simp [rankAux, heq]
      · simp [rankAux, heq]
  | p :: rest, i, pt, pr, j + 1, h1, h2 => by
    have h2m : j + 1 < rest.length := by
      simp only [List.length_cons] at h2
      omega
    have h1m : j + 1 < (rankAux (i + 1) (timeVal p.run)
        (if i = 0 then 1 else if timeVal p.run = pt then pr else i + 1)
        rest).length := by
      rw [rankAux_length]
      exact h2m
    have hmain := rankAux_rank_succ rest (i + 1) (timeVal p.run)
      (if i = 0 then 1 else if timeVal p.run = pt then pr else i + 1)
      j h1m h2m
    simp only [rankAux, List.getElem_cons_succ]
    by_cases heq : timeVal rest[j + 1].run = timeVal rest[j].run
    · rw [hmain, if_pos heq, if_pos heq]
    · rw [hmain, if_neg heq, if_neg heq]
      omega

/-- Counting a predicate that holds exactly below an index threshold. -/
theorem countP_split {α : Type} (p : α → Bool) :
    ∀ (l : List α) (m : Nat), m ≤ l.length →
      (∀ k (hk : k < l.length), k < m → p l[k] = true) →
      (∀ k (hk : k < l.length), m ≤ k → p l[k] = false) →
      l.countP p = m
  | [], m, hm, _, _ => by
    have hm0 : m = 0 := Nat.le_zero.mp hm
    simp [hm0]
  | a :: t, m, hm, h1, h2 => by
    cases m with
    | zero =>
      have ha : p a = false := h2 0 (by simp) (Nat.zero_le 0)
      have ht : t.countP p = 0 := countP_split p t 0 (Nat.zero_le _)
        (fun k hk hk0 => absurd hk0 (Nat.not_lt_zero k))
        (fun k hk hk0 => by
          have hs := h2 (k + 1) (by simp only [List.length_cons]; omega)
            (Nat.zero_le _)
          simpa using hs)
      rw [List.countP_cons, ht, ha]
      simp
    | succ m2 =>
      have ha : p a = true := h1 0 (by simp) (Nat.succ_pos m2)
      have ht : t.countP p = m2 := by
        apply countP_split p t m2
        · simp only [List.length_cons] at hm
          omega
        · intro k hk hkm
          have hs := h1 (k + 1) (by simp only [List.length_cons]; omega)
            (by omega)
          simpa using hs
        · intro k hk hkm
          have hs := h2 (k + 1) (by simp only [List.length_cons]; omega)
            (by omega)
          simpa using hs
      rw [List.countP_cons, ht, ha]
      simp

/-- On a list whose times ascend with the index, the recurrence of the rank
loop computes standard competition ranks: each rank is one more than the
number of entries with a strictly smaller time. -/
theorem rank_count_of_rec (es : List Entry)
    (hmono : ∀ k1 k2 (hk1 : k1 < es.length) (hk2 : k2 < es.length),
      k1 ≤ k2 → timeVal es[k1].run ≤ timeVal es[k2].run)
    (h0 : ∀ h : 0 < es.length, es[0].rank = 1)
    (hrec : ∀ j (h : j + 1 < es.length),
      es[j + 1].rank = if timeVal es[j + 1].run = timeVal es[j].run
        then es[j].rank else j + 2) :
    ∀ j (h : j < es.length),
      es[j].rank = 1 + es.countP
        (fun x => decide (timeVal x.run < timeVal es[j].run)) := by
  intro j
  induction j with
  | zero =>
    intro h
    rw [h0 h]
    have hc : es.countP
        (fun x => decide (timeVal x.run < timeVal es[0].run)) = 0 := by
      rw [List.countP_eq_zero]
      intro a ha hcontra
      have hlt : timeVal a.run < timeVal es[0].run := of_decide_eq_true hcontra
      obtain ⟨k, hk, hak⟩ := List.mem_iff_getElem.mp ha
      rw [← hak] at hlt
      exact absurd (hmono 0 k h hk (Nat.zero_le k)) (not_le.mpr hlt)
    rw [hc]
  | succ j ih =>
    intro h
    have hj : j < es.length := by omega
    by_cases heq : timeVal es[j + 1].run = timeVal es[j].run
    · rw [hrec j h, if_pos heq, ih hj, heq]
    · rw [hrec j h, if_neg heq]
      have hlt : timeVal es[j].run < timeVal es[j + 1].run :=
        lt_of_le_of_ne (hmono j (j + 1) hj h (Nat.le_succ j))
          (fun hc => heq hc.symm)
      have hc : es.countP
          (fun x => decide (timeVal x.run < timeVal es[j + 1].run)) =
            j + 1 := by
        apply countP_split
        · omega
        · intro k hk hkm
          exact decide_eq_true
            (lt_of_le_of_lt (hmono k j hk hj (by omega)) hlt)
        · intro k hk hkm
          exact decide_eq_false (not_lt.mpr (hmono (j + 1) k h hk hkm))
      rw [hc]
      omega

/-- The bundled ranking facts for the rank loop run over any list whose
pre-entries are sorted ascending by time. -/
theorem rankAux_sorted_facts (l : List PreEntry)
    (hs : List.Sorted preLE l) :
    (∀ h0 : 0 < (rankAux 0 0 0 l).length, (rankAux 0 0 0 l)[0].rank = 1) ∧
    (∀ j (h : j + 1 < (rankAux 0 0 0 l).length),
      (rankAux 0 0 0 l)[j + 1].rank =
        if timeVal (rankAux 0 0 0 l)[j + 1].run =
            timeVal (rankAux 0 0 0 l)[j].run
        then (rankAux 0 0 0 l)[j].rank
        else j + 2) ∧
    (∀ j (h : j < (rankAux 0 0 0 l).length),
      (rankAux 0 0 0 l)[j].rank = 1 + (rankAux 0 0 0 l).countP
        (fun x => decide (timeVal x.run <
          timeVal (rankAux 0 0 0 l)[j].run))) := by
  have hlen : (rankAux 0 0 0 l).length = l.length := rankAux_length l 0 0 0
  have hmono : ∀ k1 k2 (hk1 : k1 < (rankAux 0 0 0 l).length)
      (hk2 : k2 < (rankAux 0 0 0 l).length), k1 ≤ k2 →
      timeVal (rankAux 0 0 0 l)[k1].run ≤
        timeVal (rankAux 0 0 0 l)[k2].run := by
    intro k1 k2 hk1 hk2 hle
    have hk1m : k1 < l.length := by
      rw [← hlen]
      exact hk1
    have hk2m : k2 < l.length := by
      rw [← hlen]
      exact hk2
    rw [rankAux_getElem_run l 0 0 0 k1 hk1 hk1m,
        rankAux_getElem_run l 0 0 0 k2 hk2 hk2m]
    rcases Nat.lt_or_ge k1 k2 with hlt | hge
    · exact List.pairwise_iff_getElem.mp hs k1 k2 hk1m hk2m hlt
    · have hkeq : k1 = k2 := Nat.le_antisymm hle hge
      subst hkeq
      exact le_rfl
  have hzero : ∀ h0 : 0 < (rankAux 0 0 0 l).length,
      (rankAux 0 0 0 l)[0].rank = 1 :=
    fun h0 => rankAux_rank_zero l 0 0 h0
  have hrec : ∀ j (h : j + 1 < (rankAux 0 0 0 l).length),
      (rankAux 0 0 0 l)[j + 1].rank =
        if timeVal (rankAux 0 0 0 l)[j + 1].run =
            timeVal (rankAux 0 0 0 l)[j].run
        then (rankAux 0 0 0 l)[j].rank
        else j + 2 := by
    intro j h
    have h2 : j + 1 < l.length := by
      rw [← hlen]
      exact h
    have hj : j < (rankAux 0 0 0 l).length := by omega
    have hjm : j < l.length := by omega
    have hmain := rankAux_rank_succ l 0 0 0 j h h2
    rw [← rankAux_getElem_run l 0 0 0 (j + 1) h h2,
        ← rankAux_getElem_run l 0 0 0 j hj hjm] at hmain
    simpa using hmain
  exact ⟨hzero, hrec, rank_count_of_rec _ hmono hzero hrec⟩

/-! ### Ranker claim C1 -/

/-- C1: after the Ranker sorts the representative entries ascending by
timeSeconds, the first entry gets rank 1; each subsequent entry copies the
predecessor's rank on an exactly equal timeSeconds and otherwise gets its
1-based position j + 2 at index j + 1 (standard competition ranking: every
rank equals one plus the number of strictly faster entries, not dense
ranking); times [10, 10, 20] produce ranks [1, 1, 3]. -/
theorem claim1_competition_ranking :
    (∀ (popts : Opts) (lb : Leaderboard),
      (∀ h0 : 0 < (rankLeaderboard popts lb).length,
        (rankLeaderboard popts lb)[0].rank = 1) ∧
      (∀ j (h : j + 1 < (rankLeaderboard popts lb).length),
        (rankLeaderboard popts lb)[j + 1].rank =
          if timeVal (rankLeaderboard popts lb)[j + 1].run =
              timeVal (rankLeaderboard popts lb)[j].run
          then (rankLeaderboard popts lb)[j].rank
          else j + 2) ∧
      (∀ j (h : j < (rankLeaderboard popts lb).length),
        (rankLeaderboard popts lb)[j].rank =
          1 + (rankLeaderboard popts lb).countP
            (fun x => decide (timeVal x.run <
              timeVal (rankLeaderboard popts lb)[j].run)))) ∧
    (rankLeaderboard opts0 exLb3).map (fun e => (timeVal e.run, e.rank)) =
      [(10, 1), (10, 1), (20, 3)] := by
  constructor
  · intro popts lb
    rw [rankLeaderboard]
    exact rankAux_sorted_facts _ (List.sorted_insertionSort preLE _)
  · rfl

/-- Witness for C1: the 10/10/20 example leaderboard is nonempty and its
first entry has rank 1. -/
theorem claim1_witness :
    0 < (rankLeaderboard opts0 exLb3).length ∧
    ((rankLeaderboard opts0 exLb3).get ⟨0, by decide⟩).rank = 1 :=
  ⟨by decide, (claim1_competition_ranking.1 opts0 exLb3).1 (by decide)⟩

end SrcExport
